import Mathlib

/-!
Verification development for the LawD legal-document assistant.

The repository ships a React frontend (login with OTP, document upload and
status display, an axios instance with a token-refresh interceptor) together
with the specification of its backend ingestion pipeline and hybrid retrieval
engine.  The frontend logic below is embedded directly from the JavaScript
source; the backend components (Extractor, Embedder, Vector Index,
Relationship Store, Ingestion Coordinator, Hybrid Query Engine) are modelled
from the specification, since their code is not part of the checked tree.

Numeric scores are modelled as rationals; machine strings as Lean `String`.
-/

namespace LawD

/-! ## Frontend: Login.jsx OTP handling (embedded from source) -/

/-- From `Login.jsx` line 213: the OTP field's onChange handler stores
`e.target.value.replace(/\D/g, '').slice(0, 6)` - non-digits removed, then
truncated to the first six characters. -/
def otpOnChange (value : String) : String :=
  String.mk ((value.toList.filter Char.isDigit).take 6)

/-- Request body posted by `handleVerifyOTP` in `Login.jsx` (lines 83-87). -/
structure VerifyOtpRequest where
  phone_number : String
  otp : String
  name : Option String
deriving DecidableEq, Repr

/-- From `Login.jsx` lines 71-97: `handleVerifyOTP` first checks
`otp.length !== 6`; if so it sets an error message and returns without any
request, otherwise it posts the verify-otp request (with `name || undefined`
sent as the optional name). -/
def handleVerifyOTP (phoneNumber otp name : String) : Except String VerifyOtpRequest :=
  if otp.length ≠ 6 then
    Except.error "Please enter a 6-digit OTP"
  else
    Except.ok ⟨phoneNumber, otp, if name = "" then none else some name⟩

/-! ## Frontend: axios response interceptor (embedded from source)

The axios instance (frontend `utils/axios.js`) installs a response
interceptor: on a 401 response whose request is not yet marked `_retry`, it
marks the request, refreshes the access token, and re-sends the request once;
a 401 on the re-sent request propagates (the `_retry` mark blocks a second
refresh), and a refresh failure clears the stored tokens and user and
redirects to the login page. -/

/-- Server response to one attempt of a request. -/
inductive HttpResponse where
  | ok (body : String)
  | unauthorized
  | otherError (code : Nat)
deriving DecidableEq, Repr

/-- The relevant slice of browser localStorage: the token pair under key
`tokens` (access, refresh) and the serialized user under key `user`. -/
structure BrowserStorage where
  tokens : Option (String × String)
  user : Option String
deriving DecidableEq, Repr

/-- Outcome of a request as seen by the caller of the axios instance. -/
inductive RequestOutcome where
  | success (body : String)
  | failure
deriving DecidableEq, Repr

/-- Result of running one request through the response interceptor:
caller-visible outcome, localStorage afterwards, how many times the original
request was re-sent, and whether the browser was redirected to `/login`. -/
structure InterceptResult where
  outcome : RequestOutcome
  storage : BrowserStorage
  retries : Nat
  redirectedToLogin : Bool
deriving DecidableEq, Repr

/-- The response interceptor of the axios instance, embedded from source.
`respond n` is the server's response to the n-th transmission of this
request; `refreshResult` is the outcome of `POST /auth/token/refresh/`
(`some newAccess` on success, `none` on failure).  The source marks the
request `_retry := true` before refreshing, so when the retried request
comes back 401 the interceptor's guard `!originalRequest._retry` fails and
the error propagates with no further retry. -/
def responseInterceptor (storage : BrowserStorage) (refreshResult : Option String)
    (respond : Nat → HttpResponse) : InterceptResult :=
  match respond 0 with
  | .ok body => ⟨.success body, storage, 0, false⟩
  | .otherError _ => ⟨.failure, storage, 0, false⟩
  | .unauthorized =>
    match storage.tokens with
    | none => ⟨.failure, storage, 0, false⟩
    | some (_, refresh) =>
      match refreshResult with
      | none => ⟨.failure, ⟨none, none⟩, 0, true⟩
      | some newAccess =>
        match respond 1 with
        | .ok body => ⟨.success body, ⟨some (newAccess, refresh), storage.user⟩, 1, false⟩
        | .unauthorized => ⟨.failure, ⟨some (newAccess, refresh), storage.user⟩, 1, false⟩
        | .otherError _ => ⟨.failure, ⟨some (newAccess, refresh), storage.user⟩, 1, false⟩

/-! ## Backend data model (modelled from the spec)

The backend source (ingestion pipeline and hybrid retrieval engine) is not
part of the checked tree; every definition below carries the spec section it
is modelled from. -/

/-- Modelled from the spec (glossary, section 3): an isolation boundary over
indexed data - the shared public knowledge base or one user's private space. -/
inductive Partition where
  | pub
  | user (id : Nat)
deriving DecidableEq, Repr

/-- Modelled from the spec (section 4.6, 6): the caller's visible partitions,
computed once from verified identity - the public partition plus the single
requesting user's own partition. -/
def partitionSetOf (a : Nat) : List Partition := [Partition.pub, Partition.user a]

/-- Modelled from the spec (section 3): a bounded slice of a Document's text
with a stable sequence number and character offset. -/
structure Chunk where
  docId : Nat
  seq : Nat
  text : List Char
  startOff : Nat
deriving DecidableEq, Repr

/-- MIME-derived file type; the supported formats are PDF, DOC, DOCX, TXT
(spec section 2 and the upload form's accept list `.pdf,.docx,.doc,.txt`). -/
inductive Mime where
  | pdf
  | doc
  | docx
  | txt
  | other (s : String)
deriving DecidableEq, Repr

/-- Recognized MIME types (spec sections 2, 4.1). -/
def supportedMime : Mime → Bool
  | .pdf => true
  | .doc => true
  | .docx => true
  | .txt => true
  | .other _ => false

/-- Modelled from the spec (section 4.1): an uploaded file as the Extractor
sees it - its MIME type, whether it is malformed or password-protected, and
the plain text it carries in reading order when well formed. -/
structure RawFile where
  mime : Mime
  malformed : Bool
  passwordProtected : Bool
  content : List Char
deriving DecidableEq, Repr

/-- Modelled from the spec (sections 4.1, 7): the error taxonomy.
`unsupportedFormat` and `extractionFailed` are terminal (input-defect class);
`embeddingServiceUnavailable` and `transientStoreError` are retryable
(infrastructure class). -/
inductive IngestError where
  | unsupportedFormat
  | extractionFailed (msg : String)
  | embeddingServiceUnavailable (msg : String)
  | transientStoreError (msg : String)
deriving DecidableEq, Repr

/-- Retryable errors per the spec's taxonomy (section 7). -/
def IngestError.transient : IngestError → Bool
  | .embeddingServiceUnavailable _ => true
  | .transientStoreError _ => true
  | .unsupportedFormat => false
  | .extractionFailed _ => false

/-! ## Extractor (modelled from the spec, section 4.1) -/

/-- Chunk size ceiling: a fixed character budget (spec section 4.1 gives
500-1000 units as the intended range); a configuration constant. -/
def chunkSize : Nat := 500

/-- Trailing overlap window carried into the next chunk (spec section 4.1:
a small trailing overlap, e.g. 10 percent); a configuration constant, not
tunable per document. -/
def chunkOverlap : Nat := 50

/-- Modelled from the spec (section 4.1): split text into bounded slices of
at most `size` characters, each non-final junction sharing a trailing window
of `overlap` characters with the start of the next slice.  Degenerate
configurations (overlap at least the size) collapse to a single slice. -/
def splitChunks (size overlap : Nat) (text : List Char) : List (List Char) :=
  if text.length ≤ size ∨ size ≤ overlap then [text]
  else text.take size :: splitChunks size overlap (text.drop (size - overlap))
termination_by text.length
decreasing_by
  simp only [not_or, not_le] at *
  simp only [List.length_drop]
  omega

/-- Attach document id, sequence numbers and start offsets to the slices
produced by `splitChunks` (spec section 3: stable sequence numbers). -/
def mkChunks (docId : Nat) (pieces : List (List Char)) : List Chunk :=
  pieces.enum.map (fun it => ⟨docId, it.1, it.2, it.1 * (chunkSize - chunkOverlap)⟩)

/-- Modelled from the spec (section 4.1): `extract(file bytes, mime type)`
returns an ordered sequence of Chunks, fails with `UnsupportedFormat` on an
unrecognized MIME type, and with `ExtractionFailed` on a malformed or
password-protected file.  It writes to no store. -/
def extract (file : RawFile) (docId : Nat) : Except IngestError (List Chunk) :=
  if supportedMime file.mime = false then
    Except.error IngestError.unsupportedFormat
  else if file.malformed || file.passwordProtected then
    Except.error (IngestError.extractionFailed "malformed or password-protected file")
  else
    Except.ok (mkChunks docId (splitChunks chunkSize chunkOverlap file.content))

/-- Reconstruction of the extracted text from an ordered chunk list: the
first chunk in full, then every later chunk minus the overlap window it
shares with its predecessor (spec sections 3 and 8). -/
def reassemble (overlap : Nat) : List (List Char) → List Char
  | [] => []
  | c :: cs => c ++ (cs.map (fun d => d.drop overlap)).flatten

/-! ## Vector Index (modelled from the spec, section 4.3) -/

/-- Modelled from the spec (sections 3, 4.3): one stored Embedding, keyed by
(partition, document id, chunk sequence), with its vector; the partition tag
and the owning document's recency stamp are copied from the Document at
write time. -/
structure VectorEntry where
  partition : Partition
  docId : Nat
  chunkSeq : Nat
  vec : List ℚ
  recency : Nat
deriving DecidableEq, Repr

/-- The upsert key of a stored embedding (spec section 4.3). -/
def embKey (e : VectorEntry) : Partition × Nat × Nat := (e.partition, e.docId, e.chunkSeq)

/-- Modelled from the spec (section 4.3): `upsert(partition, document id,
embeddings)` overwrites on the key (partition, document id, chunk sequence)
rather than appending.  `embs` pairs each chunk sequence number with its
vector; `recency` is the owning document's recency stamp. -/
def upsert (store : List VectorEntry) (p : Partition) (docId : Nat) (recency : Nat)
    (embs : List (Nat × List ℚ)) : List VectorEntry :=
  let batch := embs.map (fun sv => VectorEntry.mk p docId sv.1 sv.2 recency)
  store.filter (fun e => decide (embKey e ∉ batch.map embKey)) ++ batch

/-- A ranked retrieval result: a passage reference with its score, partition
tag and document recency (spec section 4.6 attaches provenance; recency is
the merge step's tie-break key). -/
structure Passage where
  docId : Nat
  chunkSeq : Nat
  score : ℚ
  partition : Partition
  recency : Nat
deriving DecidableEq, Repr

/-- Deduplication key of a passage: (document id, chunk sequence). -/
def passageKey (p : Passage) : Nat × Nat := (p.docId, p.chunkSeq)

/-- Insert a passage into a list sorted by descending score. -/
def insertRanked (p : Passage) : List Passage → List Passage
  | [] => [p]
  | q :: qs => if q.score ≤ p.score then p :: q :: qs else q :: insertRanked p qs

/-- Sort passages by descending score (insertion sort). -/
def rankByScore (l : List Passage) : List Passage := l.foldr insertRanked []

/-- Dot product, the similarity kernel of the vector index (spec section 4.3:
cosine similarity or an equivalent monotonic transform). -/
def dot (xs ys : List ℚ) : ℚ := (List.zipWith (fun a b => a * b) xs ys).sum

/-- Modelled from the spec (section 4.3): `search(partition set, query
vector, k)` returns a ranked list of results whose partition is in the
caller-supplied partition set. -/
def search (store : List VectorEntry) (pset : List Partition) (qvec : List ℚ)
    (k : Nat) : List Passage :=
  let visible := store.filter (fun e => decide (e.partition ∈ pset))
  (rankByScore (visible.map
    (fun e => ⟨e.docId, e.chunkSeq, dot qvec e.vec, e.partition, e.recency⟩))).take k

/-! ## Relationship Store (modelled from the spec, section 4.4) -/

/-- Modelled from the spec (section 3): a named legal concept with a type
tag and a reference to the chunk it was extracted from; partition and
recency copied from the owning Document. -/
structure Entity where
  name : String
  etype : String
  docId : Nat
  chunkSeq : Nat
  partition : Partition
  recency : Nat
deriving DecidableEq, Repr

/-- Modelled from the spec (section 3): a typed, directed link between two
Entities (identified by name) with a provenance pointer to a source chunk. -/
structure Edge where
  src : String
  dst : String
  etype : String
  docId : Nat
  chunkSeq : Nat
deriving DecidableEq, Repr

/-- The relationship store: entities and typed edges (spec section 4.4). -/
structure GraphStore where
  entities : List Entity
  edges : List Edge
deriving DecidableEq, Repr

/-- Modelled from the spec (section 4.4): `upsert_entities_and_edges` is
idempotent per document - re-ingestion replaces the document's prior
entities and edges entirely (delete-then-insert in one logical write). -/
def upsertEntitiesAndEdges (g : GraphStore) (docId : Nat)
    (es : List Entity) (eds : List Edge) : GraphStore :=
  ⟨g.entities.filter (fun e => decide (e.docId ≠ docId)) ++ es,
   g.edges.filter (fun e => decide (e.docId ≠ docId)) ++ eds⟩

/-- Entities of `visible` adjacent (in either direction, undirected
relationships being two edges) to some entity of `cur`. -/
def neighbors (edges : List Edge) (visible cur : List Entity) : List Entity :=
  visible.filter (fun e => cur.any (fun c =>
    edges.any (fun ed =>
      decide ((ed.src = c.name ∧ ed.dst = e.name) ∨ (ed.src = e.name ∧ ed.dst = c.name)))))

/-- Bounded-depth expansion step for `traverse`: starting from hop-tagged
entities in `acc`, repeatedly add unvisited visible neighbors, tagging each
with the hop at which it was first reached; `fuel` bounds the depth. -/
def expandFrom (edges : List Edge) (visible : List Entity) :
    Nat → Nat → List (Entity × Nat) → List (Entity × Nat)
  | 0, _, acc => acc
  | fuel + 1, depth, acc =>
    let cur := acc.map Prod.fst
    let fresh := (neighbors edges visible cur).filter (fun e => decide (e ∉ cur))
    if fresh.isEmpty then acc
    else expandFrom edges visible fuel (depth + 1) (acc ++ fresh.map (fun e => (e, depth)))

/-- Modelled from the spec (section 4.4): `traverse(partition set, seed
terms, max hops)` keyword-matches entity names against the seed terms, walks
typed edges to a bounded depth, ranks shorter paths higher (score 1/(1+hop)),
and scopes everything to the partitions visible to the caller.  Edge-type
specificity weighting is abstracted into the hop-based score. -/
def traverse (g : GraphStore) (pset : List Partition) (seeds : List String)
    (maxHops k : Nat) : List Passage :=
  let visible := g.entities.filter (fun e => decide (e.partition ∈ pset))
  let seeded := visible.filter (fun e => decide (e.name ∈ seeds))
  let reached := expandFrom g.edges visible maxHops 1 (seeded.map (fun e => (e, 0)))
  (rankByScore (reached.map
    (fun ed => ⟨ed.1.docId, ed.1.chunkSeq, 1 / (1 + (ed.2 : ℚ)), ed.1.partition, ed.1.recency⟩))).take k

/-! ## Hybrid Query Engine (modelled from the spec, section 4.6) -/

/-- Fixed merge weight of the vector branch (spec section 4.6 step 3, e.g.
0.6; a configurable constant). -/
def vectorWeight : ℚ := 6 / 10

/-- Fixed merge weight of the graph branch (spec section 4.6 step 3, e.g.
0.4; a configurable constant). -/
def graphWeight : ℚ := 4 / 10

/-- Min-max normalization of one branch's scores (spec section 4.6 step 3:
normalize each branch's scores independently).  A constant-score branch
normalizes to 1. -/
def minmaxNormalize (l : List Passage) : List Passage :=
  match l.map Passage.score with
  | [] => []
  | s :: ss =>
    let lo := ss.foldr min s
    let hi := ss.foldr max s
    if hi = lo then l.map (fun p => { p with score := 1 })
    else l.map (fun p => { p with score := (p.score - lo) / (hi - lo) })

/-- Scale one branch's normalized scores by its fixed weight (spec section
4.6 step 3: combine with a fixed weighting). -/
def weightScores (w : ℚ) (l : List Passage) : List Passage :=
  l.map (fun p => { p with score := w * p.score })

/-- Keep the better of two entries for one passage key: the higher combined
score wins; on a score tie the more recent document wins (spec section 4.6
step 3: tie-break by document recency). -/
def pickBetter (p q : Passage) : Passage :=
  if p.score < q.score then q
  else if q.score = p.score ∧ p.recency < q.recency then q
  else p

/-- Best entry for key `k` among `l`: the entry with the higher combined
score (ties broken by recency), or none when `k` is absent. -/
def bestFor (k : Nat × Nat) (l : List Passage) : Option Passage :=
  match l.filter (fun p => decide (passageKey p = k)) with
  | [] => none
  | p :: ps => some (ps.foldl pickBetter p)

/-- Modelled from the spec (section 4.6 step 3): deduplicate the passages of
the two branch lists on (document id, chunk sequence), keeping for each key
the entry with the higher combined score. -/
def mergeDedup (xs ys : List Passage) : List Passage :=
  (((xs ++ ys).map passageKey).dedup).filterMap (fun k => bestFor k (xs ++ ys))

/-- Modelled from the spec (section 4.6 steps 3-4): normalize each branch,
weight, deduplicate keeping the higher combined score, rank, truncate to
top-k. -/
def mergeBranches (vres gres : List Passage) (k : Nat) : List Passage :=
  (rankByScore (mergeDedup (weightScores vectorWeight (minmaxNormalize vres))
                           (weightScores graphWeight (minmaxNormalize gres)))).take k

/-- Outcome of one retrieval branch: its results, or a timeout, or a
failure (spec sections 4.6 step 2 and 7). -/
inductive BranchOutcome where
  | success (results : List Passage)
  | timeout
  | failure (msg : String)
deriving DecidableEq, Repr

/-- Results a branch contributes to the merge: a branch that timed out or
failed contributes zero results (spec section 4.6 step 2). -/
def branchResults : BranchOutcome → List Passage
  | .success rs => rs
  | .timeout => []
  | .failure _ => []

/-- Whether a branch produced no usable answer (spec section 7 counts both
timeouts and errors as that branch failing). -/
def branchFailed : BranchOutcome → Bool
  | .success _ => false
  | .timeout => true
  | .failure _ => true

/-- Result surface of the query boundary: a ranked passage list - possibly
empty, meaning no matches found - or the explicit `RetrievalUnavailable`
result, distinct from an empty list (spec section 7). -/
inductive QueryResult where
  | results (passages : List Passage)
  | retrievalUnavailable
deriving DecidableEq, Repr

/-- Fault injected into one branch run (a timeout or a branch error). -/
inductive BranchFault where
  | timeout
  | failure (msg : String)
deriving DecidableEq, Repr

/-- Run the vector branch: without an injected fault it is the Vector Index
`search` scoped to the caller's partition set (spec section 4.6 step 2). -/
def runVectorBranch (fault : Option BranchFault) (store : List VectorEntry)
    (pset : List Partition) (qvec : List ℚ) (k : Nat) : BranchOutcome :=
  match fault with
  | some .timeout => .timeout
  | some (.failure m) => .failure m
  | none => .success (search store pset qvec k)

/-- Run the graph branch: without an injected fault it is the Relationship
Store `traverse` scoped to the caller's partition set (spec section 4.6
step 2). -/
def runGraphBranch (fault : Option BranchFault) (g : GraphStore)
    (pset : List Partition) (seeds : List String) (maxHops k : Nat) : BranchOutcome :=
  match fault with
  | some .timeout => .timeout
  | some (.failure m) => .failure m
  | none => .success (traverse g pset seeds maxHops k)

/-- Modelled from the spec (sections 4.6 and 7): join the two branch
outcomes.  Only when both branches fail does the query return the explicit
`retrievalUnavailable` result; otherwise a failed or timed-out branch simply
contributes zero results to the merge. -/
def hybridQuery (vout gout : BranchOutcome) (k : Nat) : QueryResult :=
  if branchFailed vout && branchFailed gout then .retrievalUnavailable
  else .results (mergeBranches (branchResults vout) (branchResults gout) k)

/-! ## Ingestion Coordinator (modelled from the spec, section 4.5) -/

/-- Modelled from the spec (section 4.5): the Document lifecycle states. -/
inductive Status where
  | uploaded
  | extracting
  | embedding
  | indexing
  | indexed
  | failed
deriving DecidableEq, Repr

/-- Modelled from the spec (section 4.5): the allowed status transitions -
the forward chain, `failed` from any in-progress state, and reprocessing
from `failed` or `indexed` back to `extracting`. -/
def allowedNext : Status → Status → Bool
  | .uploaded, .extracting => true
  | .extracting, .embedding => true
  | .embedding, .indexing => true
  | .indexing, .indexed => true
  | .extracting, .failed => true
  | .embedding, .failed => true
  | .indexing, .failed => true
  | .failed, .extracting => true
  | .indexed, .extracting => true
  | _, _ => false

/-- A status trace is well formed when every consecutive pair is an allowed
transition. -/
def traceOk : List Status → Bool
  | [] => true
  | [_] => true
  | a :: b :: rest => allowedNext a b && traceOk (b :: rest)

/-- Modelled from the spec (section 4.5): the externally triggered
reprocessing transition re-enters `extracting` from `failed` or `indexed`. -/
def reprocess (s : Status) : Option Status :=
  if s = Status.failed ∨ s = Status.indexed then some Status.extracting else none

/-- Fixed retry attempt ceiling for transient failures (spec section 4.5,
e.g. 3). -/
def retryCeiling : Nat := 3

/-- Run a retryable stage: `outcome n` is `none` when attempt number
`start + n` succeeds and `some msg` when it fails transiently.  Returns the
last error (or `none` on success) and the number of attempts consumed;
`fuel` is the remaining attempt budget. -/
def runRetries (outcome : Nat → Option String) (start : Nat) : Nat → Option String × Nat
  | 0 => (some "retry ceiling is zero", 0)
  | fuel + 1 =>
    match outcome start with
    | none => (none, 1)
    | some msg =>
      match fuel with
      | 0 => (some msg, 1)
      | next + 1 =>
        let r := runRetries outcome (start + 1) (next + 1)
        (r.1, r.2 + 1)

/-- The two stores the pipeline writes to (spec section 2 data flow). -/
structure World where
  vstore : List VectorEntry
  gstore : GraphStore
deriving DecidableEq, Repr

/-- One ingestion attempt's inputs and scheduled stage outcomes: the
uploaded file, the document's identity, partition and recency stamp, the
per-attempt transient outcomes of the embedding and index-write stages, and
the entities and edges extracted for the relationship store. -/
structure IngestPlan where
  file : RawFile
  docId : Nat
  partition : Partition
  recency : Nat
  embedOutcome : Nat → Option String
  indexOutcome : Nat → Option String
  entities : List Entity
  edges : List Edge

/-- What one ingestion run reports: the final persisted status, the ordered
trace of every status persisted, per-stage attempt counts, and the last
error recorded (spec sections 4.5 and 7). -/
structure RunReport where
  finalStatus : Status
  trace : List Status
  extractAttempts : Nat
  embedAttempts : Nat
  indexAttempts : Nat
  lastError : Option IngestError
deriving Repr

/-- Modelled from the spec (section 4.5): drive one document from `uploaded`
to `indexed`.  Extraction failures are terminal (one attempt, no retry);
the embedding and index-write stages are retried up to `retryCeiling`
attempts with the last error recorded on exhaustion; store writes are
committed only when the indexing stage succeeds, and the status is
persisted stage by stage.  `embedVec` is the deterministic embedding
function (spec section 4.2). -/
def runIngestion (embedVec : List Char → List ℚ) (w : World) (plan : IngestPlan) :
    World × RunReport :=
  match extract plan.file plan.docId with
  | .error e =>
    (w, ⟨.failed, [.uploaded, .extracting, .failed], 1, 0, 0, some e⟩)
  | .ok chunks =>
    match runRetries plan.embedOutcome 0 retryCeiling with
    | (some msg, n) =>
      (w, ⟨.failed, [.uploaded, .extracting, .embedding, .failed], 1, n, 0,
           some (.embeddingServiceUnavailable msg)⟩)
    | (none, n) =>
      match runRetries plan.indexOutcome 0 retryCeiling with
      | (some msg, m) =>
        (w, ⟨.failed, [.uploaded, .extracting, .embedding, .indexing, .failed], 1, n, m,
             some (.transientStoreError msg)⟩)
      | (none, m) =>
        let embs := chunks.map (fun c => (c.seq, embedVec c.text))
        (⟨upsert w.vstore plan.partition plan.docId plan.recency embs,
          upsertEntitiesAndEdges w.gstore plan.docId plan.entities plan.edges⟩,
         ⟨.indexed, [.uploaded, .extracting, .embedding, .indexing, .indexed], 1, n, m, none⟩)

/-! ## Theorems -/

/-- C9: for every input string typed into the OTP field, the stored otp
state consists only of digit characters and has length at most 6 (non-digits
stripped, result truncated), and `handleVerifyOTP` builds the verify-otp
request exactly when the otp state has length 6, otherwise setting the error
message and sending nothing. -/
theorem c9_otp_invariant (v phone otp name : String) :
    (otpOnChange v).toList.all Char.isDigit = true ∧
    (otpOnChange v).length ≤ 6 ∧
    ((∃ req, handleVerifyOTP phone otp name = Except.ok req) ↔ otp.length = 6) ∧
    (otp.length ≠ 6 →
      handleVerifyOTP phone otp name = Except.error "Please enter a 6-digit OTP") := by
  refine ⟨?_, ?_, ?_, ?_⟩
  · simp only [otpOnChange, List.all_eq_true]
    intro c hc
    have hc' := List.mem_of_mem_take hc
    exact (List.mem_filter.mp hc').2
  · show ((v.toList.filter Char.isDigit).take 6).length ≤ 6
    exact List.length_take_le 6 _
  · constructor
    · rintro ⟨req, hreq⟩
      by_contra hlen
      simp [handleVerifyOTP, hlen] at hreq
    · intro hlen
      refine ⟨⟨phone, otp, if name = "" then none else some name⟩, ?_⟩
      simp [handleVerifyOTP, hlen]
  · intro hlen
    simp [handleVerifyOTP, hlen]

/-- C10: the 401 token-refresh path of the axios response interceptor runs
at most once per request: the original request is re-sent at most one time,
a 401 on the re-sent request propagates as an error with no further retry,
and a refresh failure clears the stored tokens and user, propagates the
error and redirects to the login page. -/
theorem c10_single_refresh (st : BrowserStorage) (rr : Option String)
    (respond : Nat → HttpResponse) :
    (responseInterceptor st rr respond).retries ≤ 1 ∧
    (respond 0 = HttpResponse.unauthorized → respond 1 = HttpResponse.unauthorized →
      (responseInterceptor st rr respond).outcome = RequestOutcome.failure) ∧
    (respond 0 = HttpResponse.unauthorized → st.tokens.isSome = true → rr = none →
      (responseInterceptor st rr respond).storage = ⟨none, none⟩ ∧
      (responseInterceptor st rr respond).outcome = RequestOutcome.failure ∧
      (responseInterceptor st rr respond).redirectedToLogin = true) := by
  obtain ⟨tok, usr⟩ := st
  rcases h0 : respond 0 with b | _ | c
  · simp [responseInterceptor, h0]
  · rcases tok with _ | ⟨acc, ref⟩
    · simp [responseInterceptor, h0]
    · rcases rr with _ | newAcc
      · simp [responseInterceptor, h0]
      · rcases h1 : respond 1 with b' | _ | c' <;>
          simp [responseInterceptor, h0, h1]
  · simp [responseInterceptor, h0]

/-- Witness for C9: on the concrete typed value "12a45" the stored otp state
is "1245" (digits only, length 4), and a 5-character otp is rejected with
the error message and no request. -/
theorem c9_otp_invariant_witness :
    handleVerifyOTP "+911234567890" "12345" "A" =
      Except.error "Please enter a 6-digit OTP" :=
  (c9_otp_invariant "12a45" "+911234567890" "12345" "A").2.2.2 (by decide)

/-- Witness for C10: with stored tokens, a 401 on every transmission and a
failing refresh, the interceptor clears localStorage, propagates the error
and redirects to login. -/
theorem c10_single_refresh_witness :
    (responseInterceptor ⟨some ("acc", "ref"), some "user"⟩ none
        (fun _ => HttpResponse.unauthorized)).storage = ⟨none, none⟩ ∧
    (responseInterceptor ⟨some ("acc", "ref"), some "user"⟩ none
        (fun _ => HttpResponse.unauthorized)).outcome = RequestOutcome.failure ∧
    (responseInterceptor ⟨some ("acc", "ref"), some "user"⟩ none
        (fun _ => HttpResponse.unauthorized)).redirectedToLogin = true :=
  (c10_single_refresh ⟨some ("acc", "ref"), some "user"⟩ none
    (fun _ => HttpResponse.unauthorized)).2.2 rfl rfl rfl

/-- C8: a timeout of one retrieval branch is never surfaced as an error -
when either branch succeeds the query returns an ordinary result list and
the non-success branch contributes zero results; only when both branches
fail (timeout or error) does the query return the explicit
`retrievalUnavailable` result, which is distinct from an empty result list. -/
theorem c8_graceful_degradation (k : Nat) (vres gres : List Passage) (m m' : String) :
    (∀ gout, hybridQuery (BranchOutcome.success vres) gout k =
      QueryResult.results (mergeBranches vres (branchResults gout) k)) ∧
    (∀ vout, hybridQuery vout (BranchOutcome.success gres) k =
      QueryResult.results (mergeBranches (branchResults vout) gres k)) ∧
    hybridQuery BranchOutcome.timeout BranchOutcome.timeout k =
      QueryResult.retrievalUnavailable ∧
    hybridQuery BranchOutcome.timeout (BranchOutcome.failure m) k =
      QueryResult.retrievalUnavailable ∧
    hybridQuery (BranchOutcome.failure m) BranchOutcome.timeout k =
      QueryResult.retrievalUnavailable ∧
    hybridQuery (BranchOutcome.failure m) (BranchOutcome.failure m') k =
      QueryResult.retrievalUnavailable ∧
    (∀ ps, QueryResult.retrievalUnavailable ≠ QueryResult.results ps) := by
  refine ⟨?_, ?_, rfl, rfl, rfl, rfl, ?_⟩
  · intro gout
    cases gout <;> rfl
  · intro vout
    cases vout <;> rfl
  · intro ps h
    cases h

/-- Chunks built by `mkChunks` carry the sequence numbers 0, 1, ... in
order. -/
theorem mkChunks_map_seq (d : Nat) (ps : List (List Char)) :
    (mkChunks d ps).map Chunk.seq = List.range ps.length := by
  simp only [mkChunks, List.map_map]
  have : (Chunk.seq ∘ fun it : Nat × List Char =>
      Chunk.mk d it.1 it.2 (it.1 * (chunkSize - chunkOverlap))) = Prod.fst := by
    funext it
    rfl
  rw [this, List.enum_map_fst]

/-- Chunks built by `mkChunks` carry exactly the given slices as texts, in
order. -/
theorem mkChunks_map_text (d : Nat) (ps : List (List Char)) :
    (mkChunks d ps).map Chunk.text = ps := by
  simp only [mkChunks, List.map_map]
  have : (Chunk.text ∘ fun it : Nat × List Char =>
      Chunk.mk d it.1 it.2 (it.1 * (chunkSize - chunkOverlap))) = Prod.snd := by
    funext it
    rfl
  rw [this, List.enum_map_snd]

/-- The coordinator gives the extraction stage exactly one attempt on every
run: extraction failures are input defects and are not retried. -/
theorem runIngestion_extract_once (embedVec : List Char → List ℚ) (w : World)
    (plan : IngestPlan) : ((runIngestion embedVec w plan).2).extractAttempts = 1 := by
  unfold runIngestion
  rcases extract plan.file plan.docId with e | cs
  · rfl
  · rcases runRetries plan.embedOutcome 0 retryCeiling with ⟨msg, n⟩
    rcases msg with _ | msg
    · rcases runRetries plan.indexOutcome 0 retryCeiling with ⟨msg', n'⟩
      rcases msg' with _ | msg'
      · rfl
      · rfl
    · rfl

/-- C7: `extract` succeeds exactly on a recognized MIME type with a
well-formed, non-password-protected file, returning chunks whose sequence
numbers are 0, 1, ... in order; it fails with `UnsupportedFormat` exactly
when the MIME type is unrecognized and with `ExtractionFailed` exactly when
the file is malformed or password-protected; every extraction error is
non-transient, and the coordinator never retries the extraction stage. -/
theorem c7_extract_contract (f : RawFile) (d : Nat) :
    ((∃ cs, extract f d = Except.ok cs) ↔
      (supportedMime f.mime = true ∧ f.malformed = false ∧ f.passwordProtected = false)) ∧
    (extract f d = Except.error IngestError.unsupportedFormat ↔
      supportedMime f.mime = false) ∧
    ((∃ m, extract f d = Except.error (IngestError.extractionFailed m)) ↔
      (supportedMime f.mime = true ∧ (f.malformed = true ∨ f.passwordProtected = true))) ∧
    (∀ e, extract f d = Except.error e → e.transient = false) ∧
    (∀ cs, extract f d = Except.ok cs → cs.map Chunk.seq = List.range cs.length) ∧
    (∀ (embedVec : List Char → List ℚ) (w : World) (plan : IngestPlan),
      ((runIngestion embedVec w plan).2).extractAttempts = 1) := by
  obtain ⟨mime, mal, pwd, content⟩ := f
  refine ⟨?_, ?_, ?_, ?_, ?_, fun ev w plan => runIngestion_extract_once ev w plan⟩
  · cases hm : supportedMime mime <;> cases mal <;> cases pwd <;>
      simp [extract, hm]
  · cases hm : supportedMime mime <;> cases mal <;> cases pwd <;>
      simp [extract, hm]
  · cases hm : supportedMime mime <;> cases mal <;> cases pwd <;>
      simp [extract, hm]
  · intro e he
    cases hm : supportedMime mime <;> cases mal <;> cases pwd <;>
      simp [extract, hm] at he <;> subst he <;> rfl
  · intro cs hcs
    cases hm : supportedMime mime <;> cases mal <;> cases pwd <;>
      simp [extract, hm] at hcs <;>
      rw [← hcs] <;>
      simp only [mkChunks_map_seq] <;>
      congr 1 <;>
      simp [mkChunks]

/-- Witness for C7: a JPEG upload is rejected as `UnsupportedFormat`, and a
password-protected PDF as `ExtractionFailed`. -/
theorem c7_extract_contract_witness :
    extract ⟨Mime.other "image/jpeg", false, false, []⟩ 0 =
      Except.error IngestError.unsupportedFormat ∧
    (∃ m, extract ⟨Mime.pdf, false, true, []⟩ 0 =
      Except.error (IngestError.extractionFailed m)) :=
  ⟨(c7_extract_contract ⟨Mime.other "image/jpeg", false, false, []⟩ 0).2.1.mpr rfl,
   (c7_extract_contract ⟨Mime.pdf, false, true, []⟩ 0).2.2.1.mpr ⟨rfl, Or.inr rfl⟩⟩

/-- C2: the coordinator's status trace.  A run that ends `indexed` persisted
exactly the sequence uploaded, extracting, embedding, indexing, indexed;
every trace the coordinator can produce follows the allowed transition
relation (forward chain, `failed` from in-progress states only); and the
externally triggered reprocessing transition re-enters `extracting` exactly
from `failed` or `indexed`. -/
theorem c2_status_lifecycle (embedVec : List Char → List ℚ) (w : World) (plan : IngestPlan) :
    (((runIngestion embedVec w plan).2).finalStatus = Status.indexed →
      ((runIngestion embedVec w plan).2).trace =
        [Status.uploaded, Status.extracting, Status.embedding, Status.indexing,
         Status.indexed]) ∧
    traceOk ((runIngestion embedVec w plan).2).trace = true ∧
    (∀ s t, reprocess s = some t →
      (s = Status.failed ∨ s = Status.indexed) ∧ t = Status.extracting) := by
  refine ⟨?_, ?_, ?_⟩
  · unfold runIngestion
    rcases extract plan.file plan.docId with e | cs
    · intro h
      cases h
    · rcases runRetries plan.embedOutcome 0 retryCeiling with ⟨msg, n⟩
      rcases msg with _ | msg
      · rcases runRetries plan.indexOutcome 0 retryCeiling with ⟨msg', n'⟩
        rcases msg' with _ | msg'
        · intro _
          rfl
        · intro h
          cases h
      · intro h
        cases h
  · unfold runIngestion
    rcases extract plan.file plan.docId with e | cs
    · rfl
    · rcases runRetries plan.embedOutcome 0 retryCeiling with ⟨msg, n⟩
      rcases msg with _ | msg
      · rcases runRetries plan.indexOutcome 0 retryCeiling with ⟨msg', n'⟩
        rcases msg' with _ | msg'
        · rfl
        · rfl
      · rfl
  · intro s t h
    cases s <;> simp [reprocess] at h <;> subst h <;> simp

/-- Witness for C2: a successful run on a small well-formed TXT file
persists exactly the five lifecycle states in order. -/
theorem c2_status_lifecycle_witness :
    ((runIngestion (fun _ => [(1 : ℚ)]) ⟨[], ⟨[], []⟩⟩
        ⟨⟨Mime.txt, false, false, ['h', 'i']⟩, 1, Partition.pub, 0,
         fun _ => none, fun _ => none, [], []⟩).2).trace =
      [Status.uploaded, Status.extracting, Status.embedding, Status.indexing,
       Status.indexed] :=
  (c2_status_lifecycle (fun _ => [(1 : ℚ)]) ⟨[], ⟨[], []⟩⟩
    ⟨⟨Mime.txt, false, false, ['h', 'i']⟩, 1, Partition.pub, 0,
     fun _ => none, fun _ => none, [], []⟩).1 rfl

/-- A retryable stage whose every attempt fails consumes the whole attempt
budget and reports the last error. -/
theorem runRetries_all_fail (outcome : Nat → Option String) (e : String)
    (h : ∀ n, outcome n = some e) :
    ∀ fuel start, 1 ≤ fuel → runRetries outcome start fuel = (some e, fuel) := by
  intro fuel
  induction fuel with
  | zero =>
    intro start h0
    exact absurd h0 (by omega)
  | succ f ih =>
    intro start _
    rcases f with _ | g
    · show runRetries outcome start 1 = (some e, 1)
      rw [runRetries, h start]
    · show runRetries outcome start (g + 2) = (some e, g + 2)
      rw [runRetries, h start]
      show ((runRetries outcome (start + 1) (g + 1)).1,
            (runRetries outcome (start + 1) (g + 1)).2 + 1) = (some e, g + 2)
      rw [ih (start + 1) (by omega)]

/-- Every error `extract` can fail with is non-transient. -/
theorem extract_error_not_transient (f : RawFile) (d : Nat) (e : IngestError)
    (h : extract f d = Except.error e) : e.transient = false := by
  obtain ⟨mime, mal, pwd, content⟩ := f
  cases hm : supportedMime mime <;> cases mal <;> cases pwd <;>
    simp [extract, hm] at h <;> subst h <;> rfl

/-- C5: if the Embedder fails transiently on every attempt, the document
fails after exactly the retry ceiling with the last error recorded; a
non-transient extraction failure fails the document immediately, with zero
embedding attempts (no retry) and the error recorded. -/
theorem c5_retry_policy (embedVec : List Char → List ℚ) (w : World)
    (plan : IngestPlan) (e : String) :
    ((∀ n, plan.embedOutcome n = some e) →
     (∃ cs, extract plan.file plan.docId = Except.ok cs) →
      ((runIngestion embedVec w plan).2).finalStatus = Status.failed ∧
      ((runIngestion embedVec w plan).2).embedAttempts = retryCeiling ∧
      ((runIngestion embedVec w plan).2).lastError =
        some (IngestError.embeddingServiceUnavailable e)) ∧
    (∀ err, extract plan.file plan.docId = Except.error err →
      ((runIngestion embedVec w plan).2).finalStatus = Status.failed ∧
      ((runIngestion embedVec w plan).2).embedAttempts = 0 ∧
      ((runIngestion embedVec w plan).2).lastError = some err ∧
      err.transient = false) := by
  constructor
  · rintro hfail ⟨cs, hcs⟩
    unfold runIngestion
    rw [hcs, runRetries_all_fail plan.embedOutcome e hfail retryCeiling 0 (by decide)]
    exact ⟨rfl, rfl, rfl⟩
  · intro err herr
    refine ⟨?_, ?_, ?_, extract_error_not_transient plan.file plan.docId err herr⟩ <;>
      (unfold runIngestion; rw [herr])

/-- Witness for C5: with a TXT file and an embedding service that is down on
every attempt, the run fails after exactly `retryCeiling` attempts with the
last error preserved. -/
theorem c5_retry_policy_witness :
    ((runIngestion (fun _ => [(1 : ℚ)]) ⟨[], ⟨[], []⟩⟩
        ⟨⟨Mime.txt, false, false, ['h', 'i']⟩, 1, Partition.pub, 0,
         fun _ => some "embedding service unavailable", fun _ => none, [], []⟩).2).finalStatus =
      Status.failed ∧
    ((runIngestion (fun _ => [(1 : ℚ)]) ⟨[], ⟨[], []⟩⟩
        ⟨⟨Mime.txt, false, false, ['h', 'i']⟩, 1, Partition.pub, 0,
         fun _ => some "embedding service unavailable", fun _ => none, [], []⟩).2).embedAttempts =
      retryCeiling ∧
    ((runIngestion (fun _ => [(1 : ℚ)]) ⟨[], ⟨[], []⟩⟩
        ⟨⟨Mime.txt, false, false, ['h', 'i']⟩, 1, Partition.pub, 0,
         fun _ => some "embedding service unavailable", fun _ => none, [], []⟩).2).lastError =
      some (IngestError.embeddingServiceUnavailable "embedding service unavailable") :=
  (c5_retry_policy (fun _ => [(1 : ℚ)]) ⟨[], ⟨[], []⟩⟩
    ⟨⟨Mime.txt, false, false, ['h', 'i']⟩, 1, Partition.pub, 0,
     fun _ => some "embedding service unavailable", fun _ => none, [], []⟩
    "embedding service unavailable").1 (fun _ => rfl) ⟨_, rfl⟩

/-- Dropping the leading overlap from every chunk and concatenating yields
the original text minus its leading overlap window. -/
theorem flatten_drop_splitChunks (size overlap : Nat) :
    ∀ (n : Nat) (text : List Char), text.length ≤ n → overlap < size →
      overlap ≤ text.length →
      ((splitChunks size overlap text).map (fun d => d.drop overlap)).flatten =
        text.drop overlap := by
  intro n
  induction n with
  | zero =>
    intro text hlen h h2
    have : text = [] := List.eq_nil_of_length_eq_zero (by omega)
    subst this
    rw [splitChunks]
    simp
  | succ n ih =>
    intro text hlen h h2
    rw [splitChunks]
    split_ifs with hc
    · simp
    · push_neg at hc
      obtain ⟨hbig, hos⟩ := hc
      simp only [List.map_cons, List.flatten_cons]
      rw [ih (text.drop (size - overlap)) (by simp [List.length_drop]; omega) h
            (by simp [List.length_drop]; omega)]
      rw [List.drop_take, List.drop_drop]
      have hsz : size - overlap + overlap = size := by omega
      rw [hsz]
      have hsz2 : size - overlap = size - overlap := rfl
      calc (text.drop overlap).take (size - overlap) ++ text.drop size
          = (text.drop overlap).take (size - overlap) ++
              (text.drop overlap).drop (size - overlap) := by
            rw [List.drop_drop]
            have hoo : overlap + (size - overlap) = size := by omega
            rw [hoo]
        _ = text.drop overlap := List.take_append_drop _ _

/-- Reassembling the chunk slices of any text (first slice in full, later
slices minus the overlap window) reproduces the text exactly. -/
theorem reassemble_splitChunks (size overlap : Nat) (text : List Char) :
    reassemble overlap (splitChunks size overlap text) = text := by
  rw [splitChunks]
  split_ifs with hc
  · simp [reassemble]
  · push_neg at hc
    obtain ⟨hbig, hos⟩ := hc
    simp only [reassemble]
    rw [flatten_drop_splitChunks size overlap (text.drop (size - overlap)).length
          (text.drop (size - overlap)) le_rfl hos
          (by simp [List.length_drop]; omega)]
    rw [List.drop_drop]
    have hsz : size - overlap + overlap = size := by omega
    rw [hsz, List.take_append_drop]

/-- C6: for every document the Extractor processes successfully,
concatenating its chunks in sequence order, after removing the trailing
overlap window at each junction, reproduces the extracted text exactly. -/
theorem c6_chunk_reconstruction (f : RawFile) (d : Nat) (cs : List Chunk)
    (h : extract f d = Except.ok cs) :
    reassemble chunkOverlap (cs.map Chunk.text) = f.content := by
  obtain ⟨mime, mal, pwd, content⟩ := f
  cases hm : supportedMime mime <;> cases mal <;> cases pwd <;>
    simp [extract, hm] at h
  rw [← h, mkChunks_map_text]
  exact reassemble_splitChunks chunkSize chunkOverlap content

/-- Witness for C6: a concrete 1100-character text is split into overlapping
chunks and reassembles to itself. -/
theorem c6_chunk_reconstruction_witness :
    reassemble chunkOverlap
      (((extract ⟨Mime.txt, false, false, List.replicate 1100 'x'⟩ 7 ).toOption.getD []).map
        Chunk.text) = List.replicate 1100 'x' := by
  have h : extract ⟨Mime.txt, false, false, List.replicate 1100 'x'⟩ 7 =
      Except.ok (mkChunks 7 (splitChunks chunkSize chunkOverlap (List.replicate 1100 'x'))) :=
    rfl
  rw [h]
  exact c6_chunk_reconstruction ⟨Mime.txt, false, false, List.replicate 1100 'x'⟩ 7 _ h

/-- Upserting the same embedding batch twice leaves the vector index exactly
as one upsert does: writes overwrite on (partition, document id, chunk
sequence) instead of appending. -/
theorem upsert_idem (s : List VectorEntry) (p : Partition) (d r : Nat)
    (embs : List (Nat × List ℚ)) :
    upsert (upsert s p d r embs) p d r embs = upsert s p d r embs := by
  simp only [upsert]
  rw [List.filter_append]
  have hbatch : (embs.map (fun sv => VectorEntry.mk p d sv.1 sv.2 r)).filter
      (fun e => decide (embKey e ∉
        (embs.map (fun sv => VectorEntry.mk p d sv.1 sv.2 r)).map embKey)) = [] := by
    rw [List.filter_eq_nil_iff]
    intro a ha
    have hmem := List.mem_map_of_mem embKey ha
    simpa using hmem
  rw [hbatch, List.append_nil, List.filter_filter]
  simp only [Bool.and_self]

/-- Re-running the per-document delete-then-insert write of the relationship
store leaves it unchanged, provided the written entities and edges belong to
the document being written. -/
theorem upsertEntitiesAndEdges_idem (g : GraphStore) (d : Nat)
    (es : List Entity) (eds : List Edge)
    (hes : ∀ e ∈ es, e.docId = d) (heds : ∀ e ∈ eds, e.docId = d) :
    upsertEntitiesAndEdges (upsertEntitiesAndEdges g d es eds) d es eds =
      upsertEntitiesAndEdges g d es eds := by
  simp only [upsertEntitiesAndEdges]
  congr 1
  · rw [List.filter_append]
    have h1 : es.filter (fun e => decide (e.docId ≠ d)) = [] := by
      rw [List.filter_eq_nil_iff]
      intro a ha
      simp [hes a ha]
    rw [h1, List.append_nil, List.filter_filter]
    simp only [Bool.and_self]
  · rw [List.filter_append]
    have h2 : eds.filter (fun e => decide (e.docId ≠ d)) = [] := by
      rw [List.filter_eq_nil_iff]
      intro a ha
      simp [heds a ha]
    rw [h2, List.append_nil, List.filter_filter]
    simp only [Bool.and_self]

/-- C4: re-running ingestion on an unchanged document is idempotent - the
stores (embeddings, entities and edges) after the second run equal the
stores after the first run, because both stores' upserts overwrite on their
document-scoped keys rather than append. -/
theorem c4_reingestion_idempotent (embedVec : List Char → List ℚ) (w : World)
    (plan : IngestPlan)
    (hes : ∀ e ∈ plan.entities, e.docId = plan.docId)
    (heds : ∀ e ∈ plan.edges, e.docId = plan.docId) :
    (runIngestion embedVec (runIngestion embedVec w plan).1 plan).1 =
      (runIngestion embedVec w plan).1 := by
  unfold runIngestion
  rcases hE : extract plan.file plan.docId with e | cs
  · rfl
  · rcases hR : runRetries plan.embedOutcome 0 retryCeiling with ⟨msg, n⟩
    rcases msg with _ | msg
    · rcases hI : runRetries plan.indexOutcome 0 retryCeiling with ⟨msg', m⟩
      rcases msg' with _ | msg'
      · simp only []
        congr 1
        · exact upsert_idem w.vstore plan.partition plan.docId plan.recency
            (cs.map (fun c => (c.seq, embedVec c.text)))
        · exact upsertEntitiesAndEdges_idem w.gstore plan.docId plan.entities
            plan.edges hes heds
      · rfl
    · rfl

/-- Witness for C4: re-running ingestion of a concrete TXT document leaves
the concrete stores unchanged. -/
theorem c4_reingestion_idempotent_witness :
    (runIngestion (fun _ => [(1 : ℚ)])
      (runIngestion (fun _ => [(1 : ℚ)]) ⟨[], ⟨[], []⟩⟩
        ⟨⟨Mime.txt, false, false, ['h', 'i']⟩, 1, Partition.pub, 5,
         fun _ => none, fun _ => none,
         [⟨"Article 21", "statute", 1, 0, Partition.pub, 5⟩],
         [⟨"Article 21", "Article 14", "cites", 1, 0⟩]⟩).1
      ⟨⟨Mime.txt, false, false, ['h', 'i']⟩, 1, Partition.pub, 5,
       fun _ => none, fun _ => none,
       [⟨"Article 21", "statute", 1, 0, Partition.pub, 5⟩],
       [⟨"Article 21", "Article 14", "cites", 1, 0⟩]⟩).1 =
    (runIngestion (fun _ => [(1 : ℚ)]) ⟨[], ⟨[], []⟩⟩
      ⟨⟨Mime.txt, false, false, ['h', 'i']⟩, 1, Partition.pub, 5,
       fun _ => none, fun _ => none,
       [⟨"Article 21", "statute", 1, 0, Partition.pub, 5⟩],
       [⟨"Article 21", "Article 14", "cites", 1, 0⟩]⟩).1 :=
  c4_reingestion_idempotent (fun _ => [(1 : ℚ)]) ⟨[], ⟨[], []⟩⟩
    ⟨⟨Mime.txt, false, false, ['h', 'i']⟩, 1, Partition.pub, 5,
     fun _ => none, fun _ => none,
     [⟨"Article 21", "statute", 1, 0, Partition.pub, 5⟩],
     [⟨"Article 21", "Article 14", "cites", 1, 0⟩]⟩
    (by intro e he; simp at he; simp [he]) (by intro e he; simp at he; simp [he])

/-- Membership in an `insertRanked` insertion. -/
theorem mem_insertRanked (p q : Passage) (l : List Passage) :
    p ∈ insertRanked q l ↔ p = q ∨ p ∈ l := by
  induction l with
  | nil => simp [insertRanked]
  | cons a as ih =>
    simp only [insertRanked]
    split_ifs with hs
    · simp [List.mem_cons]
    · simp only [List.mem_cons, ih]
      tauto

/-- Ranking by score neither adds nor removes passages. -/
theorem mem_rankByScore (p : Passage) (l : List Passage) :
    p ∈ rankByScore l ↔ p ∈ l := by
  induction l with
  | nil => simp [rankByScore]
  | cons a as ih =>
    show p ∈ insertRanked a (rankByScore as) ↔ _
    rw [mem_insertRanked, ih]
    simp [List.mem_cons]

/-- Every result of the vector index `search` carries a partition from the
caller-supplied partition set. -/
theorem search_partition (store : List VectorEntry) (pset : List Partition)
    (qvec : List ℚ) (k : Nat) (p : Passage) (h : p ∈ search store pset qvec k) :
    p.partition ∈ pset := by
  simp only [search] at h
  have h1 := List.mem_of_mem_take h
  rw [mem_rankByScore] at h1
  obtain ⟨e, he, rfl⟩ := List.mem_map.mp h1
  have h2 := (List.mem_filter.mp he).2
  simpa using h2

/-- Every entity reached by the bounded graph expansion is either in the
initial hop-tagged set or visible. -/
theorem mem_expandFrom (edges : List Edge) (visible : List Entity) :
    ∀ (fuel depth : Nat) (acc : List (Entity × Nat)) (x : Entity × Nat),
      x ∈ expandFrom edges visible fuel depth acc → x ∈ acc ∨ x.1 ∈ visible := by
  intro fuel
  induction fuel with
  | zero =>
    intro depth acc x h
    exact Or.inl h
  | succ f ih =>
    intro depth acc x h
    simp only [expandFrom] at h
    split_ifs at h with hfr
    · exact Or.inl h
    · rcases ih _ _ x h with h1 | h1
      · rcases List.mem_append.mp h1 with h2 | h2
        · exact Or.inl h2
        · right
          obtain ⟨e, he, rfl⟩ := List.mem_map.mp h2
          have h3 := (List.mem_filter.mp he).1
          exact (List.mem_filter.mp h3).1
      · exact Or.inr h1

/-- Every result of the relationship store `traverse` carries a partition
from the caller-supplied partition set. -/
theorem traverse_partition (g : GraphStore) (pset : List Partition)
    (seeds : List String) (maxHops k : Nat) (p : Passage)
    (h : p ∈ traverse g pset seeds maxHops k) : p.partition ∈ pset := by
  simp only [traverse] at h
  have h1 := List.mem_of_mem_take h
  rw [mem_rankByScore] at h1
  obtain ⟨ed, hed, rfl⟩ := List.mem_map.mp h1
  have hvis : ed.1 ∈ g.entities.filter (fun e => decide (e.partition ∈ pset)) := by
    rcases mem_expandFrom g.edges _ maxHops 1 _ ed hed with h2 | h2
    · obtain ⟨e, he, heq⟩ := List.mem_map.mp h2
      have h3 := (List.mem_filter.mp he).1
      have : ed.1 = e := by
        rw [← heq]
      rw [this]
      exact h3
    · exact h2
  have h4 := (List.mem_filter.mp hvis).2
  simpa using h4

/-- Min-max normalization only rescales scores: every output passage shares
its partition with some input passage. -/
theorem mem_minmaxNormalize_partition (l : List Passage) (p : Passage)
    (h : p ∈ minmaxNormalize l) : ∃ q ∈ l, p.partition = q.partition := by
  unfold minmaxNormalize at h
  split at h
  · cases h
  · dsimp only at h
    split_ifs at h
    · obtain ⟨q, hq, rfl⟩ := List.mem_map.mp h
      exact ⟨q, hq, rfl⟩
    · obtain ⟨q, hq, rfl⟩ := List.mem_map.mp h
      exact ⟨q, hq, rfl⟩

/-- Weighting only rescales scores: every output passage shares its
partition with some input passage. -/
theorem mem_weightScores_partition (w : ℚ) (l : List Passage) (p : Passage)
    (h : p ∈ weightScores w l) : ∃ q ∈ l, p.partition = q.partition := by
  obtain ⟨q, hq, rfl⟩ := List.mem_map.mp h
  exact ⟨q, hq, rfl⟩

/-- A fold of `pickBetter` always returns one of its candidates. -/
theorem foldl_pickBetter_mem (ps : List Passage) :
    ∀ p : Passage, ps.foldl pickBetter p ∈ p :: ps := by
  induction ps with
  | nil => intro p; simp
  | cons a as ih =>
    intro p
    have h1 := ih (pickBetter p a)
    have h2 : pickBetter p a = p ∨ pickBetter p a = a := by
      unfold pickBetter
      split_ifs <;> simp
    simp only [List.foldl]
    rcases List.mem_cons.mp h1 with h3 | h3
    · rcases h2 with h4 | h4 <;> rw [h3, h4] <;> simp
    · simp [List.mem_cons, h3]

/-- The best entry chosen for a key is one of the candidates bearing that
key. -/
theorem bestFor_mem (k : Nat × Nat) (l : List Passage) (p : Passage)
    (h : bestFor k l = some p) : p ∈ l ∧ passageKey p = k := by
  unfold bestFor at h
  split at h
  · cases h
  · rename_i q ps heq
    have hp : p = ps.foldl pickBetter q := by
      injection h with h'
      exact h'.symm
    have hmem : p ∈ q :: ps := hp ▸ foldl_pickBetter_mem ps q
    have hfil : p ∈ l.filter (fun x => decide (passageKey x = k)) := by
      rw [heq]
      exact hmem
    have := List.mem_filter.mp hfil
    refine ⟨this.1, by simpa using this.2⟩

/-- Every merged passage comes from one of the two branch lists. -/
theorem mem_mergeDedup (xs ys : List Passage) (p : Passage)
    (h : p ∈ mergeDedup xs ys) : p ∈ xs ∨ p ∈ ys := by
  unfold mergeDedup at h
  obtain ⟨k, hk, hbf⟩ := List.mem_filterMap.mp h
  exact List.mem_append.mp (bestFor_mem k (xs ++ ys) p hbf).1

/-- Every passage of the merged, ranked, truncated hybrid result shares its
partition with some passage of one of the two branch result lists. -/
theorem mem_mergeBranches_partition (vres gres : List Passage) (k : Nat)
    (p : Passage) (h : p ∈ mergeBranches vres gres k) :
    (∃ q ∈ vres, p.partition = q.partition) ∨
    (∃ q ∈ gres, p.partition = q.partition) := by
  unfold mergeBranches at h
  have h1 := List.mem_of_mem_take h
  rw [mem_rankByScore] at h1
  rcases mem_mergeDedup _ _ p h1 with h2 | h2
  · left
    obtain ⟨q, hq, hpq⟩ := mem_weightScores_partition _ _ p h2
    obtain ⟨q', hq', hqq'⟩ := mem_minmaxNormalize_partition _ q hq
    exact ⟨q', hq', hpq.trans hqq'⟩
  · right
    obtain ⟨q, hq, hpq⟩ := mem_weightScores_partition _ _ p h2
    obtain ⟨q', hq', hqq'⟩ := mem_minmaxNormalize_partition _ q hq
    exact ⟨q', hq', hpq.trans hqq'⟩

/-- Every passage the vector branch contributes carries a partition from the
caller's partition set. -/
theorem runVectorBranch_partition (fault : Option BranchFault)
    (store : List VectorEntry) (pset : List Partition) (qvec : List ℚ) (k : Nat)
    (q : Passage) (h : q ∈ branchResults (runVectorBranch fault store pset qvec k)) :
    q.partition ∈ pset := by
  rcases fault with _ | f
  · exact search_partition store pset qvec k q h
  · rcases f with _ | m <;> cases h

/-- Every passage the graph branch contributes carries a partition from the
caller's partition set. -/
theorem runGraphBranch_partition (fault : Option BranchFault) (g : GraphStore)
    (pset : List Partition) (seeds : List String) (maxHops k : Nat)
    (q : Passage) (h : q ∈ branchResults (runGraphBranch fault g pset seeds maxHops k)) :
    q.partition ∈ pset := by
  rcases fault with _ | f
  · exact traverse_partition g pset seeds maxHops k q h
  · rcases f with _ | m <;> cases h

/-- C1: partition isolation of the hybrid query engine.  A query scoped to
user `a`'s partition set returns only passages whose partition lies in that
set (the public partition or user `a`'s own), and in particular never a
passage from the private partition of any other user `b`, across both the
vector-search branch and the graph-traversal branch and for any injected
branch faults. -/
theorem c1_partition_isolation (vstore : List VectorEntry) (gstore : GraphStore)
    (a b : Nat) (qvec : List ℚ) (seeds : List String) (maxHops k : Nat)
    (vfault gfault : Option BranchFault) (rs : List Passage)
    (hab : a ≠ b)
    (hq : hybridQuery (runVectorBranch vfault vstore (partitionSetOf a) qvec k)
            (runGraphBranch gfault gstore (partitionSetOf a) seeds maxHops k) k =
          QueryResult.results rs) :
    ∀ p ∈ rs, p.partition ∈ partitionSetOf a ∧ p.partition ≠ Partition.user b := by
  intro p hp
  unfold hybridQuery at hq
  split at hq
  case isTrue hboth => cases hq
  case isFalse hboth =>
  rw [← QueryResult.results.inj hq] at hp
  have hpart : p.partition ∈ partitionSetOf a := by
    rcases mem_mergeBranches_partition _ _ _ p hp with ⟨q, hq1, hpq⟩ | ⟨q, hq1, hpq⟩
    · rw [hpq]
      exact runVectorBranch_partition vfault vstore (partitionSetOf a) qvec k q hq1
    · rw [hpq]
      exact runGraphBranch_partition gfault gstore (partitionSetOf a) seeds maxHops k q hq1
  refine ⟨hpart, ?_⟩
  intro hpb
  rcases List.mem_cons.mp hpart with h1 | h1
  · rw [hpb] at h1
    cases h1
  · simp only [partitionSetOf, List.mem_singleton] at h1
    rw [hpb] at h1
    injection h1 with h2
    exact hab h2.symm

/-- Witness for C1: a concrete query by user 1 over a one-entity public
graph store returns a passage whose partition is public and not user 2's. -/
theorem c1_partition_isolation_witness :
    (Passage.mk 10 0 (graphWeight * 1) Partition.pub 3).partition ∈ partitionSetOf 1 ∧
    (Passage.mk 10 0 (graphWeight * 1) Partition.pub 3).partition ≠ Partition.user 2 :=
  c1_partition_isolation [] ⟨[⟨"Article 21", "statute", 10, 0, Partition.pub, 3⟩], []⟩
    1 2 [1] ["Article 21"] 2 10 none none _ (by decide) rfl
    (Passage.mk 10 0 (graphWeight * 1) Partition.pub 3)
    (by
      show _ ∈ mergeBranches (branchResults (BranchOutcome.success (search [] _ _ _)))
        (branchResults (BranchOutcome.success (traverse _ _ _ _ _))) 10
      have hsearch : search [] (partitionSetOf 1) [1] 10 = [] := rfl
      have htrav : traverse ⟨[⟨"Article 21", "statute", 10, 0, Partition.pub, 3⟩], []⟩
          (partitionSetOf 1) ["Article 21"] 2 10 =
          [Passage.mk 10 0 (1 / (1 + (0 : ℚ))) Partition.pub 3] := by
        show (rankByScore (List.map _ (expandFrom [] _ 2 1 _))).take 10 = _
        rfl
      rw [branchResults, branchResults, hsearch, htrav]
      show _ ∈ (rankByScore (mergeDedup (weightScores vectorWeight (minmaxNormalize []))
        (weightScores graphWeight (minmaxNormalize
          [Passage.mk 10 0 (1 / (1 + (0 : ℚ))) Partition.pub 3])))).take 10
      have hnorm : minmaxNormalize [Passage.mk 10 0 (1 / (1 + (0 : ℚ))) Partition.pub 3] =
          [Passage.mk 10 0 1 Partition.pub 3] := by
        show (if (1 / (1 + (0 : ℚ))) = (1 / (1 + (0 : ℚ))) then _ else _) = _
        rw [if_pos rfl]
        rfl
      rw [hnorm]
      show _ ∈ (rankByScore (mergeDedup []
        [Passage.mk 10 0 (graphWeight * 1) Partition.pub 3])).take 10
      show _ ∈ [Passage.mk 10 0 (graphWeight * 1) Partition.pub 3]
      exact List.mem_singleton.mpr rfl)

/-- The keys of the entries picked by `bestFor` over a key list form a
sublist of that key list. -/
theorem map_key_filterMap_sublist (l : List Passage) (ks : List (Nat × Nat)) :
    List.Sublist ((ks.filterMap (fun k => bestFor k l)).map passageKey) ks := by
  induction ks with
  | nil => simp
  | cons k rest ih =>
    rw [List.filterMap_cons]
    cases hbf : bestFor k l with
    | none => exact ih.cons k
    | some p =>
      rw [List.map_cons, (bestFor_mem k l p hbf).2]
      exact ih.cons₂ k

/-- Filtering the deduplicated merge output for one key yields exactly the
best entry chosen for that key. -/
theorem filter_filterMap_bestFor (l : List Passage) (K : Nat × Nat) (w : Passage)
    (hw : bestFor K l = some w) :
    ∀ ks : List (Nat × Nat), K ∈ ks → ks.Nodup →
      (ks.filterMap (fun k => bestFor k l)).filter
        (fun p => decide (passageKey p = K)) = [w] := by
  intro ks
  induction ks with
  | nil =>
    intro h
    cases h
  | cons k rest ih =>
    intro hk hnd
    obtain ⟨hknr, hndr⟩ := List.nodup_cons.mp hnd
    rw [List.filterMap_cons]
    rcases List.mem_cons.mp hk with rfl | hkr
    · have hnil : (List.filterMap (fun k' => bestFor k' l) rest).filter
          (fun p => decide (passageKey p = K)) = [] := by
        rw [List.filter_eq_nil_iff]
        intro p hp
        obtain ⟨k', hk', hbf'⟩ := List.mem_filterMap.mp hp
        have hpk := (bestFor_mem k' l p hbf').2
        have hne : passageKey p ≠ K := by
          intro hKp
          rw [hpk] at hKp
          exact hknr (hKp ▸ hk')
        intro hdec
        exact hne (of_decide_eq_true hdec)
      have hkw : passageKey w = K := (bestFor_mem K l w hw).2
      rw [hw, List.filter_cons, hnil]
      simp [hkw]
    · cases hbf : bestFor k l with
      | none => exact ih hkr hndr
      | some p =>
        rw [List.filter_cons]
        have hkey := (bestFor_mem k l p hbf).2
        have hne : ¬ (passageKey p = K) := by
          rw [hkey]
          intro h
          exact hknr (h ▸ hkr)
        simp only [hne, decide_eq_false_iff_not.mpr hne, if_false]
        exact ih hkr hndr

/-- The score `pickBetter` keeps is the larger of the two scores. -/
theorem pickBetter_score (v g : Passage) :
    (pickBetter v g).score = max v.score g.score := by
  unfold pickBetter
  split_ifs with h1 h2
  · exact (max_eq_right (le_of_lt h1)).symm
  · rw [h2.1, max_self]
  · push_neg at h1
    exact (max_eq_left h1).symm

/-- C3: merge correctness of the hybrid engine's deduplication step.  When
the vector branch list and the graph branch list each reference a key once
(entries `v` and `g`), the merged list contains exactly one entry for that
key, scored with the higher of the two branch scores, and no key ever
appears twice in the merged output. -/
theorem c3_merge_dedup (xs ys : List Passage) (v g : Passage)
    (hv : xs.filter (fun p => decide (passageKey p = passageKey v)) = [v])
    (hg : ys.filter (fun p => decide (passageKey p = passageKey v)) = [g]) :
    ((mergeDedup xs ys).filter
        (fun p => decide (passageKey p = passageKey v))).map Passage.score =
      [max v.score g.score] ∧
    ((mergeDedup xs ys).map passageKey).Nodup := by
  have hfil : (xs ++ ys).filter (fun p => decide (passageKey p = passageKey v)) =
      [v, g] := by
    rw [List.filter_append, hv, hg]
    rfl
  have hbf : bestFor (passageKey v) (xs ++ ys) = some (pickBetter v g) := by
    unfold bestFor
    rw [hfil]
    rfl
  constructor
  · have hvmem : v ∈ (xs ++ ys).filter
        (fun p => decide (passageKey p = passageKey v)) := by
      rw [hfil]
      simp
    have hKmem : passageKey v ∈ ((xs ++ ys).map passageKey).dedup := by
      rw [List.mem_dedup]
      exact List.mem_map_of_mem passageKey (List.mem_filter.mp hvmem).1
    unfold mergeDedup
    rw [filter_filterMap_bestFor (xs ++ ys) (passageKey v) (pickBetter v g) hbf _
          hKmem (List.nodup_dedup _)]
    rw [List.map_singleton, pickBetter_score]
  · exact List.Nodup.sublist
      (map_key_filterMap_sublist (xs ++ ys) (((xs ++ ys).map passageKey).dedup))
      (List.nodup_dedup _)

/-- Witness for C3: two concrete branch entries for the same passage key
merge into a single entry carrying the larger score. -/
theorem c3_merge_dedup_witness :
    ((mergeDedup [Passage.mk 1 2 (1 / 2) Partition.pub 0]
        [Passage.mk 1 2 (3 / 4) Partition.pub 7]).filter
      (fun p => decide (passageKey p =
        passageKey (Passage.mk 1 2 (1 / 2) Partition.pub 0)))).map Passage.score =
      [max ((1 : ℚ) / 2) ((3 : ℚ) / 4)] ∧
    ((mergeDedup [Passage.mk 1 2 (1 / 2) Partition.pub 0]
        [Passage.mk 1 2 (3 / 4) Partition.pub 7]).map passageKey).Nodup :=
  c3_merge_dedup [Passage.mk 1 2 (1 / 2) Partition.pub 0]
    [Passage.mk 1 2 (3 / 4) Partition.pub 7]
    (Passage.mk 1 2 (1 / 2) Partition.pub 0)
    (Passage.mk 1 2 (3 / 4) Partition.pub 7)
    (by simp [passageKey]) (by simp [passageKey])

/-- Witness for C8: a concrete query where the vector branch times out and
the graph branch succeeds returns an ordinary (non-error) result. -/
theorem c8_graceful_degradation_witness :
    hybridQuery BranchOutcome.timeout (BranchOutcome.success []) 5 =
      QueryResult.results
        (mergeBranches (branchResults BranchOutcome.timeout) [] 5) :=
  (c8_graceful_degradation 5 [] [] "m" "m").2.1 BranchOutcome.timeout

end LawD
